import Mathlib

/-!
Verification development for the tarat music downloader (`src/main.py`).

Strings are modelled as `List Char`.  Each definition below is a shallow
embedding of the corresponding Python function; doc comments name the
source lines.
-/

/-- Convert a Lean string literal to the `List Char` representation used
throughout this development. -/
def str (s : String) : List Char := s.toList

/-- The reserved filesystem characters removed by `sanitize_filename`
(`main.py` line 41, the raw string `<>:"/\|?*`). -/
def reservedChars : List Char := ['<', '>', ':', '\"', '/', '\\', '|', '?', '*']

/-- Test whether `c` is one of the reserved filesystem characters. -/
def isReserved (c : Char) : Bool := reservedChars.contains c

/-- Code points treated as whitespace by Python's `str.strip()` / `str.split()`
(the Unicode whitespace set used by `str.isspace`). -/
def pySpaceCodes : List Nat :=
  [9, 10, 11, 12, 13, 28, 29, 30, 31, 32, 133, 160, 0x1680,
   0x2000, 0x2001, 0x2002, 0x2003, 0x2004, 0x2005, 0x2006, 0x2007,
   0x2008, 0x2009, 0x200a, 0x2028, 0x2029, 0x202f, 0x205f, 0x3000]

/-- Python whitespace test (`str.isspace` on a single character). -/
def isPySpace (c : Char) : Bool := pySpaceCodes.contains c.toNat

/-- Python `str.strip()`: drop leading and trailing whitespace. -/
def pyStrip (l : List Char) : List Char :=
  ((l.dropWhile isPySpace).reverse.dropWhile isPySpace).reverse

/-- Worker for `pySplit`: `cur` holds the characters of the word currently
being scanned, in reverse order. -/
def pySplitGo (cur : List Char) : List Char → List (List Char)
  | [] => if cur.isEmpty then [] else [cur.reverse]
  | c :: rest =>
    if isPySpace c then
      if cur.isEmpty then pySplitGo [] rest else cur.reverse :: pySplitGo [] rest
    else pySplitGo (c :: cur) rest

/-- Python `str.split()` with no separator: split on runs of whitespace,
discarding empty fragments. -/
def pySplit (l : List Char) : List (List Char) := pySplitGo [] l

/-- Python `" ".join(ws)`: interleave a single space between the words. -/
def joinSp : List (List Char) → List Char
  | [] => []
  | [w] => w
  | w :: v :: ws => w ++ ' ' :: joinSp (v :: ws)

/-- Python `s.replace(String.mk [a,b,c], String.mk [r])`: scan left to right,
replacing every non-overlapping occurrence of the three-character pattern,
the replacement not taking part in later matches. -/
def replace3 (a b c r : Char) : List Char → List Char
  | [] => []
  | [x] => [x]
  | [x, y] => [x, y]
  | x :: y :: z :: rest =>
    if x = a ∧ y = b ∧ z = c then r :: replace3 a b c r rest
    else x :: replace3 a b c r (y :: z :: rest)

/-- Does `l` contain the three-character pattern `[a, b, c]` as a
contiguous substring? -/
def hasTriple (a b c : Char) : List Char → Bool
  | [] => false
  | [_] => false
  | [_, _] => false
  | x :: y :: z :: rest =>
    (x = a ∧ y = b ∧ z = c : Bool) || hasTriple a b c (y :: z :: rest)

/-- Model of `sanitize_filename` (`main.py` lines 40-44): remove reserved characters,
strip, collapse internal whitespace to single spaces, then replace
`" - "` and `" – "` (space en-dash space) by `"-"`. -/
def sanitize_filename (name : List Char) : List Char :=
  let n1 := pyStrip (name.filter (fun c => !(isReserved c)))
  let n2 := joinSp (pySplit n1)
  let n3 := replace3 ' ' '-' ' ' '-' n2
  replace3 ' ' '–' ' ' '-' n3

/-- The constant `OUTPUT_DIR` (`main.py` line 18). -/
def OUTPUT_DIR : List Char := str "tarat_tracks"

/-- Model of `os.path.join` for two POSIX path components. -/
def pathJoin (a b : List Char) : List Char :=
  if b.head? = some '/' then b
  else if a = [] ∨ a.getLast? = some '/' then a ++ b
  else a ++ '/' :: b

/-- Model of `build_expected_filepath` (`main.py` lines 46-52): the destination path
`OUTPUT_DIR/{artist}/{artist} - {title}.mp3` computed from the sanitized
artist and title.  (The `os.makedirs` side effect of the source function
creates the folder and is not part of the returned value.) -/
def build_expected_filepath (singer_name title : List Char) : List Char :=
  let singer_clean := sanitize_filename singer_name
  let title_clean := sanitize_filename title
  let filename := singer_clean ++ str " - " ++ title_clean ++ str ".mp3"
  let folder := pathJoin OUTPUT_DIR singer_clean
  pathJoin folder filename

/-- A digit's numeric value. -/
def digitVal (c : Char) : Nat := c.toNat - 48

/-- Worker for Python `int(string)`: after the first digit, further digits may
be separated by single underscores; anything else is a parse error. -/
def pyDigits (acc : Nat) : List Char → Option Nat
  | [] => some acc
  | c :: rest =>
    if c.isDigit then pyDigits (10 * acc + digitVal c) rest
    else if c = '_' then
      match rest with
      | [] => none
      | d :: rest2 => if d.isDigit then pyDigits (10 * acc + digitVal d) rest2 else none
    else none

/-- Parse a non-empty unsigned decimal numeral (Python `int` digit part). -/
def pyUnsigned : List Char → Option Nat
  | [] => none
  | c :: rest => if c.isDigit then pyDigits (digitVal c) rest else none

/-- Python `int(s)` on a string: optional surrounding whitespace, optional
sign, decimal digits (ASCII) with underscore grouping; `none` models the
`ValueError` raised on any other input. -/
def pyIntOfString (l : List Char) : Option Int :=
  match pyStrip l with
  | '+' :: rest => (pyUnsigned rest).map (fun n => (n : Int))
  | '-' :: rest => (pyUnsigned rest).map (fun n => -(n : Int))
  | t => (pyUnsigned t).map (fun n => (n : Int))

/-- Model of `safe_get_content_length` (`main.py` lines 98-102): the argument models
`resp.headers.get('content-length', 0)` — `none` when the header is absent
(the Python default `0` is then returned via `int(0)`), `some s` when the
header holds the string `s`; a `ValueError` from `int(s)` is caught and `0`
is returned. -/
def safe_get_content_length (header : Option (List Char)) : Int :=
  match header with
  | none => 0
  | some s =>
    match pyIntOfString s with
    | some n => n
    | none => 0

/-- The value assigned to `pbar_track.total` (`main.py` line 128):
`total_size or 1`, i.e. the reported length when it is non-zero (truthy)
and the placeholder `1` otherwise. -/
def pbar_total (header : Option (List Char)) : Int :=
  let total_size := safe_get_content_length header
  if total_size = 0 then 1 else total_size

/-- One entry written through `logging.error`, tagged by the call site. -/
inductive LogEntry where
  /-- Entry `HTTP {status} при скачивании {track_str}` (`main.py` line 124). -/
  | httpStatus (code : Nat) (what : List Char)
  /-- Entry `Ошибка при скачивании {track_str}: {e}` (`main.py` line 148). -/
  | downloadError (what msg : List Char)
  /-- Entry `Ошибка скачивания обложки {singer_name}: {e}` (`main.py` line 167). -/
  | coverError (artist msg : List Char)
  /-- Entry `Ошибка записи ID3-тегов в {file}: {e}` (`main.py` line 67). -/
  | tagWriteError (file msg : List Char)
  /-- Entry `Исключение в задаче: {e}` (`main.py` line 298). -/
  | taskError (msg : List Char)
deriving DecidableEq

/-- Outcome of one `session.get(url, ...)` call: an HTTP response with a
status code, or a raised exception (timeout or transport error). -/
inductive FetchResult where
  | status (code : Nat)
  | exn (msg : List Char)
deriving DecidableEq

/-- One track record `(singer_name, title, mp3_url, cover_url)` as unpacked
at `main.py` line 106; a falsy `cover_url` (Python `None` or `""`) is
modelled as `none`. -/
structure Track where
  singer_name : List Char
  title : List Char
  mp3_url : List Char
  cover_url : Option (List Char)

/-- The external world one `download_track` call interacts with. -/
structure Env where
  /-- Result of `os.path.exists` on the files present before the call. -/
  fileExists : List Char → Bool
  /-- Outcome of `session.get(mp3_url, ...)` (`main.py` line 122). -/
  mp3Fetch : List Char → FetchResult
  /-- The `content-length` header of the mp3 response, if present. -/
  contentLength : Option (List Char)
  /-- An exception raised while streaming chunks to the file (`main.py`
  lines 133-137), if any. -/
  streamExn : Option (List Char)
  /-- Outcome of `session.get(cover_url, ...)` (`main.py` line 161). -/
  coverFetch : List Char → FetchResult
  /-- An exception raised inside `write_id3_tags` by mutagen, if any. -/
  tagExn : Option (List Char)

/-- Model of `write_id3_tags` (`main.py` lines 54-67): every exception is caught
inside the function and turned into one error-log entry, so the function
never raises; it returns the log entries it produced. -/
def write_id3_tags (tagExn : Option (List Char)) (filepath : List Char) :
    List LogEntry :=
  match tagExn with
  | none => []
  | some e => [LogEntry.tagWriteError filepath e]

/-- Model of `download_cover` (`main.py` lines 151-167), returning the cover GETs
attempted, the log entries produced, and the cover file created (if any).
`fileExistsNow` is `os.path.exists` at the time of the call.  A non-200
status silently skips the write; an exception is logged. -/
def download_cover (fileExistsNow : List Char → Bool)
    (fetch : List Char → FetchResult)
    (singer_name : List Char) (cover_url : Option (List Char)) :
    List (List Char) × List LogEntry × Option (List Char) :=
  match cover_url with
  | none => ([], [], none)
  | some url =>
    let singer_clean := sanitize_filename singer_name
    let folder := pathJoin OUTPUT_DIR singer_clean
    let cover_path := pathJoin folder (singer_clean ++ str "_cover.jpg")
    if fileExistsNow cover_path then ([], [], none)
    else
      match fetch url with
      | FetchResult.status 200 => ([url], [], some cover_path)
      | FetchResult.status _ => ([url], [], none)
      | FetchResult.exn e => ([url], [LogEntry.coverError singer_name e], none)

/-- The critical section guarded by `cover_lock` (`main.py` lines 111-113
and 140-142): under the lock, if the artist is not in `downloaded_covers`
and a cover URL is present, run `download_cover`.  The returned fourth
component is the registry after the section — the source never adds to
`downloaded_covers`, so it is returned unchanged. -/
def cover_section (fileExistsNow : List Char → Bool)
    (fetch : List Char → FetchResult)
    (downloaded_covers : List (List Char))
    (singer_name : List Char) (cover_url : Option (List Char)) :
    List (List Char) × List LogEntry × Option (List Char) × List (List Char) :=
  if singer_name ∉ downloaded_covers ∧ cover_url.isSome then
    let r := download_cover fileExistsNow fetch singer_name cover_url
    (r.1, r.2.1, r.2.2, downloaded_covers)
  else ([], [], none, downloaded_covers)

/-- Observable effects of one `download_track` call. -/
structure DTResult where
  /-- The boolean the coroutine returns. -/
  success : Bool
  /-- URLs GET'd for the track body. -/
  audioRequests : List (List Char)
  /-- URLs GET'd for the cover. -/
  coverRequests : List (List Char)
  /-- Error-log entries produced during the call. -/
  logs : List LogEntry
  /-- Files opened for writing the track body. -/
  filesOpened : List (List Char)
  /-- The value assigned to `pbar_track.total`, when that line is reached. -/
  pbarTotal : Option Int
  /-- Whether a semaphore permit was acquired. -/
  permitAcquired : Bool
  /-- Whether every acquired permit was released again (`async with`
  releases on every exit path, exceptional ones included). -/
  permitReleased : Bool
  /-- Cover file created during the call, if any. -/
  coverCreated : Option (List Char)
  /-- State of `downloaded_covers` after the call. -/
  registryAfter : List (List Char)

/-- Model of `download_track` (`main.py` lines 104-149).  If the destination file
exists the body fetch is skipped, only the cover section runs, and the call
returns `True`.  Otherwise a semaphore permit is held around the body fetch:
a fetch exception or non-200 status logs once and returns `False`; on
status 200 the body is streamed to the opened file (a streaming exception
logs once and returns `False`), then the cover section and the tag write
run and the call returns `True`. -/
def download_track (env : Env) (downloaded_covers : List (List Char))
    (track : Track) : DTResult :=
  let filepath := build_expected_filepath track.singer_name track.title
  let track_str := track.singer_name ++ str " - " ++ track.title
  if env.fileExists filepath then
    let c := cover_section env.fileExists env.coverFetch downloaded_covers
      track.singer_name track.cover_url
    { success := true, audioRequests := [], coverRequests := c.1,
      logs := c.2.1, filesOpened := [], pbarTotal := none,
      permitAcquired := false, permitReleased := false,
      coverCreated := c.2.2.1, registryAfter := c.2.2.2 }
  else
    match env.mp3Fetch track.mp3_url with
    | FetchResult.exn e =>
      { success := false, audioRequests := [track.mp3_url], coverRequests := [],
        logs := [LogEntry.downloadError track_str e], filesOpened := [],
        pbarTotal := none, permitAcquired := true, permitReleased := true,
        coverCreated := none, registryAfter := downloaded_covers }
    | FetchResult.status code =>
      if code ≠ 200 then
        { success := false, audioRequests := [track.mp3_url], coverRequests := [],
          logs := [LogEntry.httpStatus code track_str], filesOpened := [],
          pbarTotal := none, permitAcquired := true, permitReleased := true,
          coverCreated := none, registryAfter := downloaded_covers }
      else
        match env.streamExn with
        | some e =>
          { success := false, audioRequests := [track.mp3_url], coverRequests := [],
            logs := [LogEntry.downloadError track_str e], filesOpened := [filepath],
            pbarTotal := some (pbar_total env.contentLength),
            permitAcquired := true, permitReleased := true,
            coverCreated := none, registryAfter := downloaded_covers }
        | none =>
          let c := cover_section env.fileExists env.coverFetch downloaded_covers
            track.singer_name track.cover_url
          let tagLogs := write_id3_tags env.tagExn filepath
          { success := true, audioRequests := [track.mp3_url], coverRequests := c.1,
            logs := c.2.1 ++ tagLogs, filesOpened := [filepath],
            pbarTotal := some (pbar_total env.contentLength),
            permitAcquired := true, permitReleased := true,
            coverCreated := c.2.2.1, registryAfter := c.2.2.2 }

/-- One execution of the cover critical section by some worker: the artist
and cover URL of the track being processed, and the outcome this particular
attempt's `session.get` would have. -/
structure CoverEvent where
  singer_name : List Char
  cover_url : Option (List Char)
  fetch : List Char → FetchResult

/-- The mutable state the cover critical sections share: the
`downloaded_covers` registry and the cover files written so far this run. -/
structure CoverRunState where
  registry : List (List Char)
  files : List (List Char)

/-- Run a sequence of cover critical sections (the `cover_lock` serializes
them, so a run is a sequence).  `exists0` is the disk contents at the start
of the run; files created by earlier sections are visible to later ones.
Returns the final state and every cover GET attempted, tagged with the
artist it was for, plus the logs. -/
def coverRun (exists0 : List Char → Bool) :
    CoverRunState → List CoverEvent →
    CoverRunState × List (List Char × List Char) × List LogEntry
  | st, [] => (st, [], [])
  | st, e :: rest =>
    let c := cover_section (fun p => exists0 p || st.files.contains p) e.fetch
      st.registry e.singer_name e.cover_url
    let st2 : CoverRunState := { registry := c.2.2.2, files := c.2.2.1.toList ++ st.files }
    let k := coverRun exists0 st2 rest
    (k.1, c.1.map (fun u => (e.singer_name, u)) ++ k.2.1, c.2.1 ++ k.2.2)

/-- What one orchestrated worker task produced at its `await`: a returned
boolean, or an exception escaping the task. -/
inductive WorkerOutcome where
  | ok (b : Bool)
  | exn (msg : List Char)
deriving DecidableEq

/-- Does this outcome satisfy Python's `result is True`? -/
def WorkerOutcome.isTrue : WorkerOutcome → Bool
  | WorkerOutcome.ok true => true
  | _ => false

/-- Is this outcome an escaped exception? -/
def WorkerOutcome.isExn : WorkerOutcome → Bool
  | WorkerOutcome.exn _ => true
  | _ => false

/-- One iteration of the `asyncio.as_completed` loop (`main.py` lines
292-301): state is `(success_count, completions counted by pbar_main, logs)`.
`result is True` increments the success counter; an exception is caught and
logged; the `finally` block counts the completion either way. -/
def orchestrateStep : Nat × Nat × List LogEntry → WorkerOutcome →
    Nat × Nat × List LogEntry
  | (s, t, logs), WorkerOutcome.ok b => (if b then s + 1 else s, t + 1, logs)
  | (s, t, logs), WorkerOutcome.exn e => (s, t + 1, logs ++ [LogEntry.taskError e])

/-- The whole collection loop over the worker outcomes in completion
order, started from `success_count = 0`. -/
def orchestrate (outs : List WorkerOutcome) : Nat × Nat × List LogEntry :=
  outs.foldl orchestrateStep (0, 0, [])

/-- The constant `MAX_CONCURRENT_DOWNLOADS` (`main.py` line 21), the capacity passed to
`asyncio.Semaphore` at line 274. -/
def MAX_CONCURRENT_DOWNLOADS : Nat := 6

/-- Abstract scheduler state for the download phase: how many worker tasks
are before the semaphore, inside a body download, and finished, plus the
free permits of the semaphore. -/
structure Sched where
  pending : Nat
  inBody : Nat
  finished : Nat
  permits : Nat
deriving DecidableEq

/-- The state in which `main` launches `n` tasks (`main.py` lines 274-283):
no download started, all `MAX_CONCURRENT_DOWNLOADS` permits free. -/
def initSched (n : Nat) : Sched :=
  { pending := n, inBody := 0, finished := 0, permits := MAX_CONCURRENT_DOWNLOADS }

/-- Interleaving steps of the download phase.  `acquire` is a task entering
`async with semaphore` (`main.py` line 116): `asyncio.Semaphore.acquire`
only resumes the caller while a permit is free, so the step requires
`0 < permits`.  `finish` is any exit from the `with` block — normal return,
`return False`, or an exception — which always gives the permit back.
`skipDisk` is the early `return True` for a file already on disk
(`main.py` lines 110-114), which never touches the semaphore. -/
inductive SchedStep : Sched → Sched → Prop
  | acquire (s : Sched) (hp : 0 < s.pending) (hq : 0 < s.permits) :
    SchedStep s { pending := s.pending - 1, inBody := s.inBody + 1,
                  finished := s.finished, permits := s.permits - 1 }
  | finish (s : Sched) (hb : 0 < s.inBody) :
    SchedStep s { pending := s.pending, inBody := s.inBody - 1,
                  finished := s.finished + 1, permits := s.permits + 1 }
  | skipDisk (s : Sched) (hp : 0 < s.pending) :
    SchedStep s { pending := s.pending - 1, inBody := s.inBody,
                  finished := s.finished + 1, permits := s.permits }

/-- Reachability through scheduler steps. -/
inductive SchedReach (init : Sched) : Sched → Prop
  | refl : SchedReach init init
  | step {s s' : Sched} : SchedReach init s → SchedStep s s' → SchedReach init s'

/-- The log entry the `except` branch of the orchestrator loop would write
for an outcome, if any. -/
def taskErrorOf : WorkerOutcome → Option LogEntry
  | WorkerOutcome.exn e => some (LogEntry.taskError e)
  | _ => none

/-- An environment for concrete evaluations: empty disk, all fetches
succeed with status 200, no exceptions anywhere. -/
def baseEnv : Env :=
  { fileExists := fun _ => false, mp3Fetch := fun _ => FetchResult.status 200,
    contentLength := none, streamExn := none,
    coverFetch := fun _ => FetchResult.status 200, tagExn := none }

/-- A concrete track for evaluations. -/
def wTrack : Track :=
  { singer_name := str "A", title := str "T",
    mp3_url := str "http://x/a.mp3", cover_url := none }

/-- The failing input for the cover-deduplication claim: a worker of artist
`A` runs the cover critical section and the cover GET fails with 404. -/
def c1Event : CoverEvent :=
  { singer_name := str "A", cover_url := some (str "http://x/cover.jpg"),
    fetch := fun _ => FetchResult.status 404 }

/-- Every whitespace character of `l` is a plain space.  (After the
whitespace collapse, no other whitespace survives.) -/
def onlySp (l : List Char) : Prop := ∀ c ∈ l, isPySpace c = true → c = ' '

/-- No two adjacent characters of `l` are both spaces. -/
def noDbl (l : List Char) : Prop :=
  List.Chain' (fun a b => ¬(a = ' ' ∧ b = ' ')) l

/-- The first character of `l`, if any, is not whitespace. -/
def noLead (l : List Char) : Prop :=
  ∀ c, l.head? = some c → isPySpace c = false

/-- The last character of `l`, if any, is not whitespace. -/
def noTrail (l : List Char) : Prop :=
  ∀ c, l.getLast? = some c → isPySpace c = false

/-- No character of `l` is a reserved filesystem character. -/
def noRes (l : List Char) : Prop := ∀ c ∈ l, isReserved c = false

/-- Property that `l` has no substring of the form space, `k`, space. -/
def noPat (k : Char) (l : List Char) : Prop := hasTriple ' ' k ' ' l = false

/-- The closure properties of `sanitize_filename` output: exactly the
strings the sanitizer maps to themselves. -/
def SanForm (l : List Char) : Prop :=
  onlySp l ∧ noDbl l ∧ noLead l ∧ noTrail l ∧ noRes l ∧ noPat '-' l ∧ noPat '–' l

/-- Every word is non-empty and free of whitespace — the shape of
`str.split()` output. -/
def GoodWords (ws : List (List Char)) : Prop :=
  ∀ w ∈ ws, w ≠ [] ∧ ∀ c ∈ w, isPySpace c = false

theorem cover_section_registry_unchanged (fe : List Char → Bool)
    (f : List Char → FetchResult) (reg : List (List Char))
    (a : List Char) (u : Option (List Char)) :
    (cover_section fe f reg a u).2.2.2 = reg := by
  unfold cover_section
  split <;> rfl

theorem coverRun_registry_unchanged (exists0 : List Char → Bool)
    (evs : List CoverEvent) : ∀ st : CoverRunState,
    (coverRun exists0 st evs).1.registry = st.registry := by
  induction evs with
  | nil => intro st; rfl
  | cons e rest ih =>
    intro st
    unfold coverRun
    simp only [ih, cover_section_registry_unchanged]

/-- C1: the claim says at most one cover GET is attempted per distinct
artist per run, even across failed attempts, with an atomic check-and-mark
of the registry.  The code never adds to `downloaded_covers`, so after a
failed first attempt a second worker of the same artist issues a second
GET: on the trace of two critical sections for artist `A` whose fetches
return 404, two GETs of the cover URL are attempted and the registry is
still empty afterwards. -/
theorem C1_duplicate_cover_fetch :
    (coverRun (fun _ => false) ⟨[], []⟩ [c1Event, c1Event]).2.1 =
      [(str "A", str "http://x/cover.jpg"), (str "A", str "http://x/cover.jpg")] ∧
    (coverRun (fun _ => false) ⟨[], []⟩ [c1Event, c1Event]).1.registry = [] := by
  decide

/-- C2 counterexample: with the `content-length` header absent, the code
reports the expected total as the integer `0` (not an indeterminate
marker), and the progress-bar total becomes the placeholder `1`. -/
theorem C2_counterexample :
    safe_get_content_length none = 0 ∧ pbar_total none = 1 := by
  decide

/-- C2 amended: when the header is present and parseable as an integer,
that value is returned as the expected total size; when it is absent or
unparseable, `safe_get_content_length` returns `0` (not an "unknown"
marker), and the progress-bar total then falls back to the placeholder `1`
(the fallback also fires for a parsed length of `0`). -/
theorem C2_content_length_amended :
    (∀ s n, pyIntOfString s = some n → safe_get_content_length (some s) = n) ∧
    (∀ s, pyIntOfString s = none → safe_get_content_length (some s) = 0) ∧
    safe_get_content_length none = 0 ∧
    (∀ h, pbar_total h =
      if safe_get_content_length h = 0 then 1 else safe_get_content_length h) := by
  refine ⟨fun s n h => ?_, fun s h => ?_, rfl, fun h => rfl⟩ <;>
    simp [safe_get_content_length, h]

theorem C2_amended_witness :
    safe_get_content_length (some (str "1234")) = 1234 ∧
    safe_get_content_length (some (str "12 MB")) = 0 :=
  ⟨C2_content_length_amended.1 (str "1234") 1234 (by decide),
   C2_content_length_amended.2.1 (str "12 MB") (by decide)⟩

/-- C3: when the destination file already exists, `download_track` returns
`True` and issues no GET of the audio URL (lines 110-114 return before the
body fetch; only the cover section runs). -/
theorem C3_existing_file_skips_body (env : Env) (reg : List (List Char))
    (track : Track)
    (h : env.fileExists (build_expected_filepath track.singer_name track.title) = true) :
    (download_track env reg track).success = true ∧
    (download_track env reg track).audioRequests = [] := by
  simp [download_track, h]

theorem C3_witness :
    (download_track { baseEnv with fileExists := fun _ => true } [] wTrack).success = true ∧
    (download_track { baseEnv with fileExists := fun _ => true } [] wTrack).audioRequests = [] :=
  C3_existing_file_skips_body { baseEnv with fileExists := fun _ => true } [] wTrack
    (by decide)

/-- C4: every state reachable from the launch state has at most
`MAX_CONCURRENT_DOWNLOADS` (6) body downloads in flight, and from a
reachable state with no free permit no step lets a further task enter a
body download (acquire suspends until a permit is free). -/
theorem C4_semaphore_bounds_inflight (n : Nat) (s : Sched)
    (h : SchedReach (initSched n) s) :
    s.inBody ≤ MAX_CONCURRENT_DOWNLOADS ∧
    (s.permits = 0 → ∀ s', SchedStep s s' → s'.inBody ≤ s.inBody) := by
  have inv : s.inBody + s.permits = MAX_CONCURRENT_DOWNLOADS := by
    induction h with
    | refl => rfl
    | step _ hs ih => cases hs <;> simp_all <;> omega
  refine ⟨by omega, fun hz s' hs => ?_⟩
  cases hs with
  | acquire hp hq => omega
  | finish hb => simp
  | skipDisk hp => simp

theorem C4_witness :
    (⟨2, 1, 0, 5⟩ : Sched).inBody ≤ MAX_CONCURRENT_DOWNLOADS ∧
    ((⟨2, 1, 0, 5⟩ : Sched).permits = 0 →
      ∀ s', SchedStep ⟨2, 1, 0, 5⟩ s' → s'.inBody ≤ (⟨2, 1, 0, 5⟩ : Sched).inBody) :=
  C4_semaphore_bounds_inflight 3 ⟨2, 1, 0, 5⟩
    (SchedReach.step SchedReach.refl
      (SchedStep.acquire (initSched 3) (by decide) (by decide)))

theorem orchestrate_foldl (outs : List WorkerOutcome) :
    ∀ s t logs, outs.foldl orchestrateStep (s, t, logs) =
      (s + outs.countP (fun o => WorkerOutcome.isTrue o),
       t + outs.length, logs ++ outs.filterMap taskErrorOf) := by
  induction outs with
  | nil => simp
  | cons o rest ih =>
    intro s t logs
    cases o with
    | ok b =>
      cases b <;>
        simp [orchestrateStep, ih, WorkerOutcome.isTrue, taskErrorOf,
          List.countP_cons] <;> omega
    | exn e =>
      simp [orchestrateStep, ih, WorkerOutcome.isTrue, taskErrorOf,
        List.countP_cons]
      omega

/-- C5: the collection loop consumes every outcome — an exception escaping
a worker is caught and logged, never aborting the batch — and the final
tally is (number of workers whose result was `True`, total number of
tracks); exceptions and `False` results are non-successes. -/
theorem C5_exception_tolerant_tally (outs : List WorkerOutcome) :
    (orchestrate outs).1 = outs.countP (fun o => WorkerOutcome.isTrue o) ∧
    (orchestrate outs).2.1 = outs.length ∧
    (orchestrate outs).2.2 = outs.filterMap taskErrorOf := by
  simp [orchestrate, orchestrate_foldl]

/-- C6: a non-200 status on the body fetch makes `download_track` return
`False` with exactly the one error-log entry of line 124, the destination
file never opened, and the semaphore permit it held released again. -/
theorem C6_non200_clean_failure (env : Env) (reg : List (List Char))
    (track : Track) (code : Nat)
    (hne : env.fileExists (build_expected_filepath track.singer_name track.title) = false)
    (hf : env.mp3Fetch track.mp3_url = FetchResult.status code)
    (hc : code ≠ 200) :
    (download_track env reg track).success = false ∧
    (download_track env reg track).logs =
      [LogEntry.httpStatus code (track.singer_name ++ str " - " ++ track.title)] ∧
    (download_track env reg track).filesOpened = [] ∧
    (download_track env reg track).permitAcquired = true ∧
    (download_track env reg track).permitReleased = true := by
  simp [download_track, hne, hf, hc]

theorem C6_witness :
    (download_track { baseEnv with mp3Fetch := fun _ => FetchResult.status 404 } [] wTrack).success = false ∧
    (download_track { baseEnv with mp3Fetch := fun _ => FetchResult.status 404 } [] wTrack).logs =
      [LogEntry.httpStatus 404 (wTrack.singer_name ++ str " - " ++ wTrack.title)] ∧
    (download_track { baseEnv with mp3Fetch := fun _ => FetchResult.status 404 } [] wTrack).filesOpened = [] ∧
    (download_track { baseEnv with mp3Fetch := fun _ => FetchResult.status 404 } [] wTrack).permitAcquired = true ∧
    (download_track { baseEnv with mp3Fetch := fun _ => FetchResult.status 404 } [] wTrack).permitReleased = true :=
  C6_non200_clean_failure { baseEnv with mp3Fetch := fun _ => FetchResult.status 404 }
    [] wTrack 404 (by decide) (by decide) (by decide)

/-- C7: once the body download completed (status 200, no streaming
exception), a failure inside `write_id3_tags` only adds a log entry — the
call still returns `True`, whatever `tagExn` is. -/
theorem C7_tag_failure_nonfatal (env : Env) (reg : List (List Char))
    (track : Track)
    (hne : env.fileExists (build_expected_filepath track.singer_name track.title) = false)
    (hf : env.mp3Fetch track.mp3_url = FetchResult.status 200)
    (hs : env.streamExn = none) :
    (download_track env reg track).success = true ∧
    (∀ e, env.tagExn = some e →
      LogEntry.tagWriteError (build_expected_filepath track.singer_name track.title) e ∈
        (download_track env reg track).logs) := by
  constructor
  · simp [download_track, hne, hf, hs]
  · intro e he
    simp [download_track, hne, hf, hs, write_id3_tags, he]

theorem C7_witness :
    (download_track { baseEnv with tagExn := some (str "mutagen failure") } [] wTrack).success = true ∧
    LogEntry.tagWriteError (build_expected_filepath wTrack.singer_name wTrack.title)
        (str "mutagen failure") ∈
      (download_track { baseEnv with tagExn := some (str "mutagen failure") } [] wTrack).logs :=
  ⟨(C7_tag_failure_nonfatal { baseEnv with tagExn := some (str "mutagen failure") } [] wTrack
      (by decide) (by decide) (by decide)).1,
   (C7_tag_failure_nonfatal { baseEnv with tagExn := some (str "mutagen failure") } [] wTrack
      (by decide) (by decide) (by decide)).2 (str "mutagen failure") rfl⟩

/-- C10: a name consisting only of reserved characters and whitespace
sanitizes to the empty string, and the destination path then degenerates:
for artist and title `"???"` the artist directory component is empty and
the path collapses to the file `" - .mp3"` directly under the output
directory. -/
theorem C10_empty_sanitization_degenerate_path (name : List Char)
    (h : name.all (fun c => isReserved c || isPySpace c) = true) :
    sanitize_filename name = [] ∧
    build_expected_filepath (str "???") (str "???") = str "tarat_tracks/ - .mp3" := by
  refine ⟨?_, by decide⟩
  have h2 : pyStrip (name.filter (fun c => !(isReserved c))) = [] := by
    have hd : (name.filter (fun c => !(isReserved c))).dropWhile isPySpace = [] := by
      rw [List.dropWhile_eq_nil_iff]
      intro x hx
      rw [List.mem_filter] at hx
      rcases hx with ⟨hmem, hres⟩
      have := (List.all_eq_true.mp h) x hmem
      simp only [Bool.or_eq_true] at this
      rcases this with hr | hs
      · rw [hr] at hres; simp at hres
      · exact hs
    unfold pyStrip
    rw [hd]
    rfl
  simp only [sanitize_filename]
  rw [h2]
  rfl

theorem C10_witness :
    sanitize_filename (str "???") = [] ∧
    build_expected_filepath (str "???") (str "???") = str "tarat_tracks/ - .mp3" :=
  C10_empty_sanitization_degenerate_path (str "???") (by decide)

theorem isPySpace_space : isPySpace ' ' = true := by decide

theorem ne_space_of_not_sp {c : Char} (h : isPySpace c = false) : c ≠ ' ' :=
  fun hc => absurd (hc ▸ h) (by decide)


theorem pySplitGo_eq_nil_nil : pySplitGo [] [] = ([] : List (List Char)) := rfl

theorem pySplitGo_eq_cons_nil (c0 : Char) (cur' : List Char) :
    pySplitGo (c0 :: cur') [] = [(c0 :: cur').reverse] := rfl

theorem pySplitGo_eq_sp_nil {c : Char} (rest : List Char) (hc : isPySpace c = true) :
    pySplitGo [] (c :: rest) = pySplitGo [] rest := by
  simp [pySplitGo, hc]

theorem pySplitGo_eq_sp_cons {c : Char} (c0 : Char) (cur' rest : List Char)
    (hc : isPySpace c = true) :
    pySplitGo (c0 :: cur') (c :: rest) = (c0 :: cur').reverse :: pySplitGo [] rest := by
  simp [pySplitGo, hc]

theorem pySplitGo_eq_nonsp {c : Char} (cur rest : List Char) (hc : isPySpace c = false) :
    pySplitGo cur (c :: rest) = pySplitGo (c :: cur) rest := by
  simp [pySplitGo, hc]

theorem pySplitGo_word (t : List Char) :
    ∀ (w cur : List Char), (∀ ch ∈ w, isPySpace ch = false) → (cur ≠ [] ∨ w ≠ []) →
    pySplitGo cur (w ++ ' ' :: t) = (cur.reverse ++ w) :: pySplitGo [] t := by
  intro w
  induction w with
  | nil =>
    intro cur hw hne
    rcases hne with h | h
    · cases cur with
      | nil => exact absurd rfl h
      | cons c0 cur' =>
        simpa using pySplitGo_eq_sp_cons c0 cur' t isPySpace_space
    · exact absurd rfl h
  | cons ch w' ih =>
    intro cur hw _
    have hch : isPySpace ch = false := hw ch (by simp)
    calc pySplitGo cur ((ch :: w') ++ ' ' :: t)
        = pySplitGo (ch :: cur) (w' ++ ' ' :: t) := pySplitGo_eq_nonsp cur _ hch
      _ = ((ch :: cur).reverse ++ w') :: pySplitGo [] t :=
          ih (ch :: cur) (fun x hx => hw x (by simp [hx])) (Or.inl (by simp))
      _ = (cur.reverse ++ ch :: w') :: pySplitGo [] t := by simp

theorem pySplitGo_last :
    ∀ (w cur : List Char), (∀ ch ∈ w, isPySpace ch = false) → (cur ≠ [] ∨ w ≠ []) →
    pySplitGo cur w = [cur.reverse ++ w] := by
  intro w
  induction w with
  | nil =>
    intro cur hw hne
    rcases hne with h | h
    · cases cur with
      | nil => exact absurd rfl h
      | cons c0 cur' => simpa using pySplitGo_eq_cons_nil c0 cur'
    · exact absurd rfl h
  | cons ch w' ih =>
    intro cur hw _
    have hch : isPySpace ch = false := hw ch (by simp)
    calc pySplitGo cur (ch :: w')
        = pySplitGo (ch :: cur) w' := pySplitGo_eq_nonsp cur _ hch
      _ = [(ch :: cur).reverse ++ w'] :=
          ih (ch :: cur) (fun x hx => hw x (by simp [hx])) (Or.inl (by simp))
      _ = [cur.reverse ++ ch :: w'] := by simp

theorem pySplitGo_ne_nil (l : List Char) :
    ∀ cur : List Char, cur ≠ [] → pySplitGo cur l ≠ [] := by
  induction l with
  | nil =>
    intro cur h
    cases cur with
    | nil => exact absurd rfl h
    | cons c0 cur' => rw [pySplitGo_eq_cons_nil]; simp
  | cons c rest ih =>
    intro cur h
    cases cur with
    | nil => exact absurd rfl h
    | cons c0 cur' =>
      by_cases hc : isPySpace c = true
      · rw [pySplitGo_eq_sp_cons c0 cur' rest hc]; simp
      · rw [pySplitGo_eq_nonsp _ _ (Bool.not_eq_true _ ▸ hc)]
        exact ih (c :: c0 :: cur') (by simp)

theorem pySplitGo_goodWords (l : List Char) :
    ∀ cur : List Char, (∀ c ∈ cur, isPySpace c = false) →
    ∀ w ∈ pySplitGo cur l, w ≠ [] ∧ ∀ c ∈ w, isPySpace c = false ∧ (c ∈ cur ∨ c ∈ l) := by
  induction l with
  | nil =>
    intro cur hcur w hw
    cases cur with
    | nil => rw [pySplitGo_eq_nil_nil] at hw; exact absurd hw (by simp)
    | cons c0 cur' =>
      rw [pySplitGo_eq_cons_nil, List.mem_singleton] at hw
      subst hw
      refine ⟨by simp, fun c hc => ?_⟩
      rw [List.mem_reverse] at hc
      exact ⟨hcur c hc, Or.inl hc⟩
  | cons x rest ih =>
    intro cur hcur w hw
    by_cases hx : isPySpace x = true
    · have step : ∀ w ∈ pySplitGo [] rest,
          w ≠ [] ∧ ∀ c ∈ w, isPySpace c = false ∧ (c ∈ cur ∨ c ∈ x :: rest) := by
        intro w hw
        have h2 := ih [] (by simp) w hw
        refine ⟨h2.1, fun c hc => ⟨(h2.2 c hc).1, Or.inr ?_⟩⟩
        rcases (h2.2 c hc).2 with h | h
        · exact absurd h (by simp)
        · exact List.mem_cons_of_mem x h
      cases cur with
      | nil =>
        rw [pySplitGo_eq_sp_nil rest hx] at hw
        exact step w hw
      | cons c0 cur' =>
        rw [pySplitGo_eq_sp_cons c0 cur' rest hx, List.mem_cons] at hw
        rcases hw with hw | hw
        · subst hw
          refine ⟨by simp, fun c hc => ?_⟩
          rw [List.mem_reverse] at hc
          exact ⟨hcur c hc, Or.inl hc⟩
        · exact step w hw
    · rw [Bool.not_eq_true] at hx
      rw [pySplitGo_eq_nonsp cur rest hx] at hw
      have h2 := ih (x :: cur) (by
        intro c hc
        rcases List.mem_cons.mp hc with h | h
        · exact h ▸ hx
        · exact hcur c h) w hw
      refine ⟨h2.1, fun c hc => ⟨(h2.2 c hc).1, ?_⟩⟩
      rcases (h2.2 c hc).2 with h | h
      · rcases List.mem_cons.mp h with h' | h'
        · exact Or.inr (h' ▸ List.mem_cons_self x rest)
        · exact Or.inl h'
      · exact Or.inr (List.mem_cons_of_mem x h)

theorem joinSp_ne_nil (w : List Char) (ws : List (List Char)) (hw : w ≠ []) :
    joinSp (w :: ws) ≠ [] := by
  cases ws with
  | nil => exact hw
  | cons v ws' => simp [joinSp]

theorem joinSp_head (w : List Char) (ws : List (List Char)) (hw : w ≠ []) :
    (joinSp (w :: ws)).head? = w.head? := by
  cases ws with
  | nil => rfl
  | cons v ws' =>
    cases w with
    | nil => exact absurd rfl hw
    | cons c w' => rfl

theorem mem_joinSp (ws : List (List Char)) :
    ∀ c ∈ joinSp ws, (∃ w ∈ ws, c ∈ w) ∨ c = ' ' := by
  induction ws with
  | nil => intro c hc; exact absurd hc (by simp [joinSp])
  | cons w ws ih =>
    intro c hc
    cases ws with
    | nil => exact Or.inl ⟨w, by simp, hc⟩
    | cons v ws' =>
      simp only [joinSp, List.mem_append, List.mem_cons] at hc
      rcases hc with h | h | h
      · exact Or.inl ⟨w, by simp, h⟩
      · exact Or.inr h
      · rcases ih c h with ⟨u, hu, hcu⟩ | h'
        · exact Or.inl ⟨u, List.mem_cons_of_mem w hu, hcu⟩
        · exact Or.inr h'

theorem chain_of_nosp (w : List Char) (hw : ∀ c ∈ w, isPySpace c = false) :
    noDbl w := by
  induction w with
  | nil => exact List.chain'_nil
  | cons a w' ih =>
    refine List.chain'_cons'.mpr ⟨fun y _ hab => ?_, ih (fun c hc => hw c (by simp [hc]))⟩
    exact ne_space_of_not_sp (hw a (by simp)) hab.1

theorem noDbl_joinSp (ws : List (List Char)) (h : GoodWords ws) : noDbl (joinSp ws) := by
  induction ws with
  | nil => exact List.chain'_nil
  | cons w ws ih =>
    have hw := h w (by simp)
    cases ws with
    | nil => exact chain_of_nosp w hw.2
    | cons v ws' =>
      have hv := h v (by simp)
      have htail : GoodWords (v :: ws') := fun u hu => h u (List.mem_cons_of_mem w hu)
      show List.Chain' _ (w ++ ' ' :: joinSp (v :: ws'))
      refine List.chain'_append.mpr ⟨chain_of_nosp w hw.2, ?_, ?_⟩
      · refine List.chain'_cons'.mpr ⟨fun y hy hab => ?_, ih htail⟩
        rw [joinSp_head v ws' hv.1] at hy
        have : y ∈ v := List.mem_of_mem_head? hy
        exact ne_space_of_not_sp (hv.2 y this) hab.2
      · intro x hx y hy hab
        have : x ∈ w := List.mem_of_mem_getLast? hx
        exact ne_space_of_not_sp (hw.2 x this) hab.1

theorem noLead_joinSp (ws : List (List Char)) (h : GoodWords ws) : noLead (joinSp ws) := by
  cases ws with
  | nil => intro c hc; exact absurd hc (by simp [joinSp])
  | cons w ws' =>
    intro c hc
    have hw := h w (by simp)
    rw [joinSp_head w ws' hw.1] at hc
    exact hw.2 c (List.mem_of_mem_head? hc)

theorem noTrail_joinSp (ws : List (List Char)) (h : GoodWords ws) : noTrail (joinSp ws) := by
  induction ws with
  | nil => intro c hc; exact absurd hc (by simp [joinSp])
  | cons w ws ih =>
    have hw := h w (by simp)
    cases ws with
    | nil =>
      intro c hc
      exact hw.2 c (List.mem_of_mem_getLast? hc)
    | cons v ws' =>
      have htail : GoodWords (v :: ws') := fun u hu => h u (List.mem_cons_of_mem w hu)
      intro c hc
      show isPySpace c = false
      have hJ : joinSp (v :: ws') ≠ [] := joinSp_ne_nil v ws' (h v (by simp)).1
      have h1 : (joinSp (w :: v :: ws')).getLast? = (' ' :: joinSp (v :: ws')).getLast? := by
        show (w ++ ' ' :: joinSp (v :: ws')).getLast? = _
        exact List.getLast?_append_of_ne_nil w (by simp)
      have h2 : (' ' :: joinSp (v :: ws')).getLast? = (joinSp (v :: ws')).getLast? := by
        cases hJe : joinSp (v :: ws') with
        | nil => exact absurd hJe hJ
        | cons a t => exact List.getLast?_cons_cons
      rw [h1, h2] at hc
      exact ih htail c hc

theorem onlySp_joinSp (ws : List (List Char)) (h : GoodWords ws) : onlySp (joinSp ws) := by
  intro c hc hsp
  rcases mem_joinSp ws c hc with ⟨w, hw, hcw⟩ | h'
  · exact absurd ((h w hw).2 c hcw) (by simp [hsp])
  · exact h'

theorem noRes_joinSp (ws : List (List Char)) (h : ∀ w ∈ ws, noRes w) :
    noRes (joinSp ws) := by
  intro c hc
  rcases mem_joinSp ws c hc with ⟨w, hw, hcw⟩ | h'
  · exact h w hw c hcw
  · subst h'; decide

theorem dropWhile_first_false (p : Char → Bool) :
    ∀ (l : List Char) (c : Char) (t : List Char), l.dropWhile p = c :: t → p c = false := by
  intro l
  induction l with
  | nil => intro c t h; exact absurd h (by simp)
  | cons a l' ih =>
    intro c t h
    rw [List.dropWhile_cons] at h
    by_cases ha : p a = true
    · rw [if_pos ha] at h
      exact ih c t h
    · rw [Bool.not_eq_true] at ha
      rw [if_neg (by simp [ha])] at h
      cases h
      exact ha

theorem collapse_id_len :
    ∀ (n : Nat) (l : List Char), l.length ≤ n →
    onlySp l → noDbl l → noLead l → noTrail l → joinSp (pySplit l) = l := by
  intro n
  induction n with
  | zero =>
    intro l hl _ _ _ _
    have : l = [] := List.length_eq_zero.mp (Nat.le_zero.mp hl)
    subst this
    rfl
  | succ n ih =>
    intro l hl h1 h2 h3 h4
    cases l with
    | nil => rfl
    | cons c l' =>
    have hc : isPySpace c = false := h3 c rfl
    set w := (c :: l').takeWhile (fun ch => !isPySpace ch) with hw_def
    set d := (c :: l').dropWhile (fun ch => !isPySpace ch) with hd_def
    have hwd : w ++ d = c :: l' :=
      List.takeWhile_append_dropWhile (fun ch => !isPySpace ch) (c :: l')
    have hw_nosp : ∀ ch ∈ w, isPySpace ch = false := by
      intro ch hch
      rw [hw_def] at hch
      have := List.mem_takeWhile_imp hch
      simpa using this
    have hw_ne : w ≠ [] := by
      rw [hw_def, List.takeWhile_cons, if_pos (by simp [hc])]
      simp
    cases hd : d with
    | nil =>
      have hweq : w = c :: l' := by rw [← hwd, hd, List.append_nil]
      rw [← hweq]
      show joinSp (pySplitGo [] w) = w
      rw [pySplitGo_last w [] hw_nosp (Or.inr hw_ne)]
      rfl
    | cons s t =>
      have hs_sp : isPySpace s = true := by
        have := dropWhile_first_false (fun ch => !isPySpace ch) (c :: l') s t (hd_def ▸ hd)
        simpa using this
      have hs_mem : s ∈ c :: l' := by
        rw [← hwd, hd]
        exact List.mem_append_right _ (by simp)
      have hs : s = ' ' := h1 s hs_mem hs_sp
      subst hs
      have hl2 : w ++ ' ' :: t = c :: l' := by rw [← hwd, hd]
      have ht_ne : t ≠ [] := by
        intro h0
        subst h0
        have hlast : (c :: l').getLast? = some ' ' := by
          rw [← hl2]
          exact List.getLast?_concat _
        have := h4 ' ' hlast
        exact absurd this (by decide)
      have hnd : noDbl (w ++ ' ' :: t) := by rw [hl2]; exact h2
      rcases List.chain'_append.mp hnd with ⟨hw_ch, hst_ch, hbound⟩
      rcases List.chain'_cons'.mp hst_ch with ⟨hsp_t, ht_ch⟩
      have ht1 : onlySp t := by
        intro ch hm hsp
        refine h1 ch ?_ hsp
        rw [← hl2]
        exact List.mem_append_right _ (List.mem_cons_of_mem _ hm)
      have ht_lead : noLead t := by
        intro ch hch
        have hne : ch ≠ ' ' := fun he => (hsp_t ch hch) ⟨rfl, he⟩
        by_contra hsp'
        rw [Bool.not_eq_false] at hsp'
        exact hne (ht1 ch (List.mem_of_mem_head? hch) hsp')
      have ht4 : noTrail t := by
        intro ch hch
        apply h4 ch
        rw [← hl2, List.getLast?_append_of_ne_nil _ (by simp)]
        cases htc : t with
        | nil => exact absurd htc ht_ne
        | cons a t' =>
          rw [List.getLast?_cons_cons, ← htc]
          exact hch
      have hlen : t.length ≤ n := by
        have hll : (w ++ ' ' :: t).length = (c :: l').length := by rw [hl2]
        simp only [List.length_append, List.length_cons] at hll
        have hwpos : 0 < w.length := List.length_pos.mpr hw_ne
        simp only [List.length_cons] at hl
        omega
      have hrec := ih t hlen ht1 ht_ch ht_lead ht4
      have hsplit : pySplit (c :: l') = w :: pySplit t := by
        conv_lhs => rw [← hl2]
        show pySplitGo [] (w ++ ' ' :: t) = _
        rw [pySplitGo_word t w [] hw_nosp (Or.inr hw_ne)]
        rfl
      have hpt_ne : pySplit t ≠ [] := by
        cases htc : t with
        | nil => exact absurd htc ht_ne
        | cons a t' =>
          have ha : isPySpace a = false := ht_lead a (by rw [htc]; rfl)
          show pySplitGo [] _ ≠ []
          rw [pySplitGo_eq_nonsp _ _ ha]
          exact pySplitGo_ne_nil t' [a] (by simp)
      rw [hsplit]
      cases hpt : pySplit t with
      | nil => exact absurd hpt hpt_ne
      | cons u us =>
        show joinSp (w :: u :: us) = c :: l'
        have hstep : joinSp (w :: u :: us) = w ++ ' ' :: joinSp (u :: us) := rfl
        rw [hstep, ← hpt, hrec, hl2]

theorem noDbl_tail {x : Char} {l : List Char} (h : noDbl (x :: l)) : noDbl l :=
  (List.chain'_cons'.mp h).2

theorem noDbl_rel {x y : Char} {l : List Char} (h : noDbl (x :: y :: l)) :
    ¬(x = ' ' ∧ y = ' ') :=
  (List.chain'_cons.mp h).1

theorem replace3_mem (a b c r : Char) :
    ∀ l : List Char, ∀ x ∈ replace3 a b c r l, x ∈ l ∨ x = r
  | [] => by simp [replace3]
  | [x] => by simp [replace3]
  | [x, y] => by simp [replace3]
  | x :: y :: z :: rest => by
    intro u hu
    simp only [replace3] at hu
    by_cases h : x = a ∧ y = b ∧ z = c
    · rw [if_pos h] at hu
      rcases List.mem_cons.mp hu with h' | h'
      · exact Or.inr h'
      · rcases replace3_mem a b c r rest u h' with hh | hh
        · exact Or.inl (by simp [hh])
        · exact Or.inr hh
    · rw [if_neg h] at hu
      rcases List.mem_cons.mp hu with h' | h'
      · exact Or.inl (by simp [h'])
      · rcases replace3_mem a b c r (y :: z :: rest) u h' with hh | hh
        · exact Or.inl (List.mem_cons_of_mem x hh)
        · exact Or.inr hh

theorem replace3_ne_nil (a b c r : Char) :
    ∀ l : List Char, l ≠ [] → replace3 a b c r l ≠ []
  | [] => fun h => absurd rfl h
  | [x] => by intro _; simp [replace3]
  | [x, y] => by intro _; simp [replace3]
  | x :: y :: z :: rest => by
    intro _
    simp only [replace3]
    by_cases h : x = a ∧ y = b ∧ z = c
    · rw [if_pos h]; simp
    · rw [if_neg h]; simp

theorem replace3_head (a b c r : Char) :
    ∀ l : List Char, (replace3 a b c r l).head? = l.head? ∨
      (replace3 a b c r l).head? = some r
  | [] => Or.inl rfl
  | [x] => Or.inl rfl
  | [x, y] => Or.inl rfl
  | x :: y :: z :: rest => by
    simp only [replace3]
    by_cases h : x = a ∧ y = b ∧ z = c
    · rw [if_pos h]; exact Or.inr rfl
    · rw [if_neg h]; exact Or.inl rfl

theorem getLast?_cons_of_ne_nil (x : Char) {A : List Char} (h : A ≠ []) :
    (x :: A).getLast? = A.getLast? := by
  cases A with
  | nil => exact absurd rfl h
  | cons e es => exact List.getLast?_cons_cons

theorem replace3_last (a b c r : Char) :
    ∀ l : List Char, (replace3 a b c r l).getLast? = l.getLast? ∨
      (replace3 a b c r l).getLast? = some r
  | [] => Or.inl rfl
  | [x] => Or.inl rfl
  | [x, y] => Or.inl rfl
  | x :: y :: z :: rest => by
    simp only [replace3]
    by_cases h : x = a ∧ y = b ∧ z = c
    · rw [if_pos h]
      cases hrest : rest with
      | nil => exact Or.inr (by simp [replace3])
      | cons w t =>
        have hA : replace3 a b c r (w :: t) ≠ [] :=
          replace3_ne_nil a b c r (w :: t) (by simp)
        rw [getLast?_cons_of_ne_nil r hA]
        rcases replace3_last a b c r (w :: t) with hh | hh
        · refine Or.inl ?_
          rw [hh]
          rw [List.getLast?_cons_cons, List.getLast?_cons_cons, List.getLast?_cons_cons]
        · exact Or.inr hh
    · rw [if_neg h]
      have hA : replace3 a b c r (y :: z :: rest) ≠ [] :=
        replace3_ne_nil a b c r (y :: z :: rest) (by simp)
      rw [getLast?_cons_of_ne_nil x hA]
      rcases replace3_last a b c r (y :: z :: rest) with hh | hh
      · refine Or.inl ?_
        rw [hh, List.getLast?_cons_cons, List.getLast?_cons_cons, List.getLast?_cons_cons]
      · exact Or.inr hh

theorem replace3_noDbl (b r : Char) (hr : r ≠ ' ') :
    ∀ l : List Char, noDbl l → noDbl (replace3 ' ' b ' ' r l)
  | [] => fun h => h
  | [x] => fun h => h
  | [x, y] => fun h => h
  | x :: y :: z :: rest => by
    intro h
    simp only [replace3]
    by_cases hm : x = ' ' ∧ y = b ∧ z = ' '
    · rw [if_pos hm]
      refine List.chain'_cons'.mpr ⟨fun u _ hab => hr hab.1, ?_⟩
      exact replace3_noDbl b r hr rest (noDbl_tail (noDbl_tail (noDbl_tail h)))
    · rw [if_neg hm]
      refine List.chain'_cons'.mpr
        ⟨fun u hu hab => ?_, replace3_noDbl b r hr (y :: z :: rest) (noDbl_tail h)⟩
      rcases replace3_head ' ' b ' ' r (y :: z :: rest) with hh | hh
      · rw [hh] at hu
        simp only [List.head?_cons, Option.mem_def, Option.some.injEq] at hu
        exact noDbl_rel h ⟨hab.1, hu ▸ hab.2⟩
      · rw [hh] at hu
        simp only [Option.mem_def, Option.some.injEq] at hu
        exact hr (hu ▸ hab.2)

theorem hasTriple_tail (a b c x : Char) :
    ∀ l : List Char, hasTriple a b c (x :: l) = false → hasTriple a b c l = false
  | [] => fun _ => rfl
  | [_] => fun _ => rfl
  | y :: z :: rest => by
    intro h
    simp only [hasTriple, Bool.or_eq_false_iff] at h
    exact h.2

theorem hasTriple_cons_of_head_ne (a b c x : Char) (hx : x ≠ a) :
    ∀ l : List Char, hasTriple a b c l = false → hasTriple a b c (x :: l) = false
  | [] => fun _ => rfl
  | [_] => fun _ => rfl
  | y :: z :: rest => by
    intro h
    simp only [hasTriple, Bool.or_eq_false_iff]
    refine ⟨by simp [hx], h⟩

theorem replace3_noTriple (b k r : Char) (hr : r ≠ ' ') :
    ∀ l : List Char, noDbl l → (k = b ∨ hasTriple ' ' k ' ' l = false) →
    hasTriple ' ' k ' ' (replace3 ' ' b ' ' r l) = false
  | [] => fun _ _ => rfl
  | [x] => fun _ _ => rfl
  | [x, y] => fun _ _ => rfl
  | x :: y :: z :: rest => by
    intro hnd hcond
    simp only [replace3]
    by_cases hm : x = ' ' ∧ y = b ∧ z = ' '
    · rw [if_pos hm]
      have hcond' : k = b ∨ hasTriple ' ' k ' ' rest = false := by
        rcases hcond with h | h
        · exact Or.inl h
        · exact Or.inr (hasTriple_tail _ _ _ z rest
            (hasTriple_tail _ _ _ y (z :: rest)
              (hasTriple_tail _ _ _ x (y :: z :: rest) h)))
      have htail := replace3_noTriple b k r hr rest
        (noDbl_tail (noDbl_tail (noDbl_tail hnd))) hcond'
      exact hasTriple_cons_of_head_ne ' ' k ' ' r hr _ htail
    · rw [if_neg hm]
      have hcond' : k = b ∨ hasTriple ' ' k ' ' (y :: z :: rest) = false := by
        rcases hcond with h | h
        · exact Or.inl h
        · exact Or.inr (hasTriple_tail _ _ _ x (y :: z :: rest) h)
      have htail := replace3_noTriple b k r hr (y :: z :: rest) (noDbl_tail hnd) hcond'
      by_cases hx : x = ' '
      · subst hx
        have hy : y ≠ ' ' := fun he => noDbl_rel hnd ⟨rfl, he⟩
        have key : ∀ e : Char, y = k → e = ' ' → (e = z ∨ e = r) → False := by
          rintro e hyk he (hez | her)
          · have hz : z = ' ' := by rw [← hez]; exact he
            rcases hcond with hkb | hfalse
            · exact hm ⟨rfl, hkb ▸ hyk, hz⟩
            · have htrue : hasTriple ' ' k ' ' (' ' :: y :: z :: rest) = true := by
                simp [hasTriple, hyk, hz]
              rw [htrue] at hfalse
              exact absurd hfalse (by simp)
          · exact hr (her ▸ he)
        cases hrest : rest with
        | nil =>
          show hasTriple ' ' k ' ' (' ' :: [y, z]) = false
          simp only [hasTriple, Bool.or_eq_false_iff, decide_eq_false_iff_not]
          constructor
          · rintro ⟨-, hyk, hz⟩
            exact key z hyk hz (Or.inl rfl)
          · trivial
        | cons w t2 =>
          have hyB : replace3 ' ' b ' ' r (y :: z :: w :: t2) =
              y :: replace3 ' ' b ' ' r (z :: w :: t2) := by
            simp only [replace3]
            rw [if_neg (fun hcontra => hy hcontra.1)]
          rw [hyB]
          rw [hrest, hyB] at htail
          cases hB : replace3 ' ' b ' ' r (z :: w :: t2) with
          | nil => exact rfl
          | cons e B' =>
            rw [hB] at htail
            simp only [hasTriple, Bool.or_eq_false_iff, decide_eq_false_iff_not]
            refine ⟨?_, htail⟩
            rintro ⟨-, hyk, he⟩
            have hhead : (e : Char) = z ∨ e = r := by
              rcases replace3_head ' ' b ' ' r (z :: w :: t2) with hh | hh
              · rw [hB] at hh
                simp only [List.head?_cons, Option.some.injEq] at hh
                exact Or.inl hh
              · rw [hB] at hh
                simp only [List.head?_cons, Option.some.injEq] at hh
                exact Or.inr hh
            exact key e hyk he hhead
      · exact hasTriple_cons_of_head_ne ' ' k ' ' x hx _ htail

theorem mem_pyStrip {c : Char} {l : List Char} (h : c ∈ pyStrip l) : c ∈ l := by
  unfold pyStrip at h
  rw [List.mem_reverse] at h
  have h1 := (List.dropWhile_sublist isPySpace).subset h
  rw [List.mem_reverse] at h1
  exact (List.dropWhile_sublist isPySpace).subset h1

theorem dropWhile_id_of_noLead {l : List Char} (h : noLead l) :
    l.dropWhile isPySpace = l := by
  cases l with
  | nil => rfl
  | cons c l' =>
    rw [List.dropWhile_cons, if_neg (by simp [h c rfl])]

theorem pyStrip_id {l : List Char} (h3 : noLead l) (h4 : noTrail l) :
    pyStrip l = l := by
  unfold pyStrip
  rw [dropWhile_id_of_noLead h3]
  have hrev : noLead l.reverse := by
    intro c hc
    rw [List.head?_reverse] at hc
    exact h4 c hc
  rw [dropWhile_id_of_noLead hrev, List.reverse_reverse]

theorem replace3_id (a b c r : Char) :
    ∀ l : List Char, hasTriple a b c l = false → replace3 a b c r l = l
  | [] => fun _ => rfl
  | [x] => fun _ => rfl
  | [x, y] => fun _ => rfl
  | x :: y :: z :: rest => by
    intro h
    simp only [hasTriple, Bool.or_eq_false_iff, decide_eq_false_iff_not] at h
    simp only [replace3]
    rw [if_neg h.1]
    rw [replace3_id a b c r (y :: z :: rest) h.2]

theorem replace3_onlySp (b r : Char) (hrsp : isPySpace r = false) {l : List Char}
    (h : onlySp l) : onlySp (replace3 ' ' b ' ' r l) := by
  intro c hc hsp
  rcases replace3_mem ' ' b ' ' r l c hc with hm | hm
  · exact h c hm hsp
  · subst hm
    exact absurd hsp (by simp [hrsp])

theorem replace3_noRes (b r : Char) (hres : isReserved r = false) {l : List Char}
    (h : noRes l) : noRes (replace3 ' ' b ' ' r l) := by
  intro c hc
  rcases replace3_mem ' ' b ' ' r l c hc with hm | hm
  · exact h c hm
  · exact hm ▸ hres

theorem replace3_noLead (b r : Char) (hrsp : isPySpace r = false) {l : List Char}
    (h : noLead l) : noLead (replace3 ' ' b ' ' r l) := by
  intro c hc
  rcases replace3_head ' ' b ' ' r l with hh | hh
  · exact h c (hh ▸ hc)
  · rw [hh] at hc
    cases hc
    exact hrsp

theorem replace3_noTrail (b r : Char) (hrsp : isPySpace r = false) {l : List Char}
    (h : noTrail l) : noTrail (replace3 ' ' b ' ' r l) := by
  intro c hc
  rcases replace3_last ' ' b ' ' r l with hh | hh
  · exact h c (hh ▸ hc)
  · rw [hh] at hc
    cases hc
    exact hrsp

theorem sanitize_SanForm (l : List Char) : SanForm (sanitize_filename l) := by
  have hres1 : noRes (pyStrip ((l.filter (fun c => !(isReserved c))))) := by
    intro c hc
    have := mem_pyStrip hc
    rw [List.mem_filter] at this
    simpa using this.2
  have hwords := pySplitGo_goodWords (pyStrip (l.filter (fun c => !(isReserved c)))) []
    (by simp)
  have hgw : GoodWords (pySplit (pyStrip (l.filter (fun c => !(isReserved c))))) := by
    intro w hw
    exact ⟨(hwords w hw).1, fun c hc => ((hwords w hw).2 c hc).1⟩
  have hwres : ∀ w ∈ pySplit (pyStrip (l.filter (fun c => !(isReserved c)))), noRes w := by
    intro w hw c hc
    rcases ((hwords w hw).2 c hc).2 with h | h
    · exact absurd h (by simp)
    · exact hres1 c h
  have h2sp : onlySp (joinSp (pySplit (pyStrip (l.filter (fun c => !(isReserved c)))))) :=
    onlySp_joinSp _ hgw
  have h2db : noDbl (joinSp (pySplit (pyStrip (l.filter (fun c => !(isReserved c)))))) :=
    noDbl_joinSp _ hgw
  have h2ld : noLead (joinSp (pySplit (pyStrip (l.filter (fun c => !(isReserved c)))))) :=
    noLead_joinSp _ hgw
  have h2tr : noTrail (joinSp (pySplit (pyStrip (l.filter (fun c => !(isReserved c)))))) :=
    noTrail_joinSp _ hgw
  have h2rs : noRes (joinSp (pySplit (pyStrip (l.filter (fun c => !(isReserved c)))))) :=
    noRes_joinSp _ hwres
  have h3sp := replace3_onlySp '-' '-' (by decide) h2sp
  have h3db := replace3_noDbl '-' '-' (by decide) _ h2db
  have h3ld := replace3_noLead '-' '-' (by decide) h2ld
  have h3tr := replace3_noTrail '-' '-' (by decide) h2tr
  have h3rs := replace3_noRes '-' '-' (by decide) h2rs
  have h3p1 : noPat '-' (replace3 ' ' '-' ' ' '-'
      (joinSp (pySplit (pyStrip (l.filter (fun c => !(isReserved c))))))) :=
    replace3_noTriple '-' '-' '-' (by decide) _ h2db (Or.inl rfl)
  refine ⟨replace3_onlySp '–' '-' (by decide) h3sp,
    replace3_noDbl '–' '-' (by decide) _ h3db,
    replace3_noLead '–' '-' (by decide) h3ld,
    replace3_noTrail '–' '-' (by decide) h3tr,
    replace3_noRes '–' '-' (by decide) h3rs,
    replace3_noTriple '–' '-' '-' (by decide) _ h3db (Or.inr h3p1),
    replace3_noTriple '–' '–' '-' (by decide) _ h3db (Or.inl rfl)⟩

theorem sanitize_id_of_SanForm {l : List Char} (h : SanForm l) :
    sanitize_filename l = l := by
  obtain ⟨hsp, hdb, hld, htr, hrs, hp1, hp2⟩ := h
  have hfilter : l.filter (fun c => !(isReserved c)) = l :=
    List.filter_eq_self.mpr (fun c hc => by simp [hrs c hc])
  have hstrip : pyStrip l = l := pyStrip_id hld htr
  have hcollapse : joinSp (pySplit l) = l :=
    collapse_id_len l.length l le_rfl hsp hdb hld htr
  have hrep1 : replace3 ' ' '-' ' ' '-' l = l := replace3_id ' ' '-' ' ' '-' l hp1
  have hrep2 : replace3 ' ' '–' ' ' '-' l = l := replace3_id ' ' '–' ' ' '-' l hp2
  show replace3 ' ' '–' ' ' '-' (replace3 ' ' '-' ' ' '-'
    (joinSp (pySplit (pyStrip (l.filter (fun c => !(isReserved c))))))) = l
  rw [hfilter, hstrip, hcollapse, hrep1, hrep2]

/-- C8: sanitization is idempotent, and its output contains none of the
reserved filesystem characters. -/
theorem C8_sanitize_idempotent_reserved_free (x : List Char) :
    sanitize_filename (sanitize_filename x) = sanitize_filename x ∧
    (sanitize_filename x).all (fun c => !(isReserved c)) = true := by
  refine ⟨sanitize_id_of_SanForm (sanitize_SanForm x), ?_⟩
  rw [List.all_eq_true]
  intro c hc
  obtain ⟨-, -, -, -, hrs, -, -⟩ := sanitize_SanForm x
  simp [hrs c hc]
